import Mathlib

/-!
Shallow embedding of the partition-layout staging engine of the `partner`
library (src/src/lib.rs and src/src/partition.rs), together with theorems
checking the specification's claims against it.

Modelling conventions:
* Rust `i64` values are Lean `Int`; `u64` values are Lean `Nat`, with the
  wrap-around of `as` casts made explicit where the source performs them.
* `Vec<T>` is `List T`; `Vec::push` appends at the end, `Vec::pop` removes
  the last element.
* Functions that can panic (index out of bounds, `unwrap`, `assert!`)
  return `Option`, with `none` standing for the panic.
* `&mut self` methods become state-passing functions `Device → ... → Device`
  (paired with `Option Error` where the source returns `Result`); on the
  error path the device is returned unchanged, as in the source, where the
  early `return Err` leaves `self` untouched.
* The libparted device handle is reduced to the two fields the engine
  reads from it: `length` (total sectors) and `sector_size`.
-/

set_option linter.unusedVariables false

namespace Partner

/-- Inclusive sector range, modelling Rust `RangeInclusive<i64>`; the field
`stop` models the range's `end()` (a Lean keyword). -/
structure SectorRange where
  start : Int
  stop : Int
deriving DecidableEq, Repr

/-- Lifecycle tag of a partition entry, from src/src/partition.rs `PartitionKind`. -/
inductive PartitionKind
  | Real
  | Virtual
  | Hidden
deriving DecidableEq, Repr

/-- Filesystems, from src/src/partition.rs `FileSystem`. -/
inductive FileSystem
  | Btrfs
  | Exfat
  | Ext2
  | Ext4
  | F2fs
  | Fat16
  | Fat32
  | Jfs
  | LinuxSwap
  | Ntfs
  | Xfs
deriving DecidableEq, Repr

/-- A partition entry, from src/src/partition.rs `Partition`: each editable
field is a base value plus a history stack of overrides (most recent last). -/
structure Partition where
  path : Option String
  mount_point : Option String
  kind : PartitionKind
  name : String × List String
  bounds : SectorRange × List SectorRange
  fs : Option FileSystem × List (Option FileSystem)
  sector_size : Nat
deriving DecidableEq, Repr

/-- Current bounds of a partition: `self.bounds.1.last().unwrap_or(&self.bounds.0)`. -/
def Partition.curBounds (p : Partition) : SectorRange :=
  p.bounds.2.getLast?.getD p.bounds.1

/-- Current name of a partition: `self.name.1.last().unwrap_or(&self.name.0)`. -/
def Partition.curName (p : Partition) : String :=
  p.name.2.getLast?.getD p.name.1

/-- `Partition::new` from src/src/partition.rs: a fresh `Virtual` entry with
empty histories and no path or mount point. -/
def Partition.new (name : String) (bounds : SectorRange) (fs : Option FileSystem)
    (sector_size : Nat) : Partition :=
  { path := none
    mount_point := none
    kind := PartitionKind.Virtual
    name := (name, [])
    bounds := (bounds, [])
    fs := (fs, [])
    sector_size := sector_size }

/-- `Partition::undo_all_changes`: clear the three per-field history stacks. -/
def Partition.undoAllChanges (p : Partition) : Partition :=
  { p with name := (p.name.1, []), bounds := (p.bounds.1, []), fs := (p.fs.1, []) }

/-- The engine's error type, from src/src/lib.rs `Error`. -/
inductive Error
  | OverlapsExisting (index : Nat)
  | OutOfBounds
deriving DecidableEq, Repr

/-- Internal change-log record, from src/src/lib.rs `InnerChange`. -/
inductive InnerChange
  | Name (partition : Nat) (new : String)
  | NewPartition (name : String) (fs : Option FileSystem) (bounds : SectorRange) (index : Nat)
  | RemovePartition (index : Nat) (removed : Option Partition)
  | ResizePartition (index : Nat) (bounds : SectorRange)
deriving DecidableEq, Repr

/-- Public change record returned by `undo_change`, from src/src/lib.rs `Change`. -/
inductive Change
  | Name (partition : Nat) (new : String)
  | NewPartition (name : String) (fs : Option FileSystem) (bounds : SectorRange)
  | RemovePartition (index : Nat)
  | ResizePartition (index : Nat) (bounds : SectorRange)
deriving DecidableEq, Repr

/-- The device aggregate, from src/src/lib.rs `Device`; the raw libparted
handle is reduced to `length` (sectors) and `sector_size` (bytes), the only
data the staging engine reads from it. -/
structure Device where
  model : String
  path : String
  partitions : List Partition
  changes : List InnerChange
  length : Nat
  sector_size : Nat
deriving DecidableEq, Repr

/-- Wrap a natural number into the `u64` value range, modelling `u64` overflow. -/
def u64wrap (x : Nat) : Nat :=
  x % 18446744073709551616

/-- Model of Rust `i64 as u64` (two's-complement reinterpretation). -/
def u64OfI64 (x : Int) : Nat :=
  (x % 18446744073709551616).toNat

/-- Model of Rust `u64 as i64` (two's-complement reinterpretation). -/
def i64OfU64 (x : Nat) : Int :=
  if u64wrap x < 9223372036854775808 then (u64wrap x : Int)
  else (u64wrap x : Int) - 18446744073709551616

/-- `self.raw.length() as i64`, the device length in sectors as an `i64`. -/
def Device.lenI (d : Device) : Int :=
  i64OfU64 d.length

/-- `Device::size`: `Byte::from_u64(self.raw.length() * self.raw.sector_size())`,
as a byte count (u64 multiplication wraps). -/
def Device.sizeBytes (d : Device) : Nat :=
  u64wrap (d.length * d.sector_size)

/-- `Device::partitions`: the visible entries, i.e. all whose kind is not `Hidden`. -/
def Device.visible (d : Device) : List Partition :=
  d.partitions.filter (fun p => decide (p.kind ≠ PartitionKind.Hidden))

/-- `Device::partitions_enum`: enumerate the full list, then keep non-`Hidden`
entries paired with their absolute index. -/
def Device.visibleEnum (d : Device) : List (Nat × Partition) :=
  d.partitions.enum.filter (fun x => decide (x.2.kind ≠ PartitionKind.Hidden))

/-- `Device::n_changes`: length of the pending change log. -/
def Device.nChanges (d : Device) : Nat :=
  d.changes.length

/-- One endpoint of a Rust `RangeBounds<i64>` argument (`std::ops::Bound`). -/
inductive RangeBound
  | included (b : Int)
  | excluded (b : Int)
  | unbounded
deriving DecidableEq, Repr

/-- A `RangeBounds<i64>` argument as a pair of endpoint bounds. -/
structure RangeArg where
  startB : RangeBound
  stopB : RangeBound
deriving DecidableEq, Repr

/-- Bounds normalization shared by `new_partition` and `resize_partition`:
included endpoints pass through, excluded ones shift by one, and unbounded
ends resolve to `0` and `self.raw.length() as i64`. -/
def normBounds (r : RangeArg) (d : Device) : SectorRange :=
  { start :=
      match r.startB with
      | RangeBound.included b => b
      | RangeBound.excluded b => b + 1
      | RangeBound.unbounded => 0
    stop :=
      match r.stopB with
      | RangeBound.included b => b
      | RangeBound.excluded b => b - 1
      | RangeBound.unbounded => d.lenI }

/-- Peek condition `iter.peek().is_some_and(|(_, p)| p.bounds().start() > bounds.end())`
of the `new_partition` insertion scan. -/
def peekStartGt (bounds : SectorRange) (rest : List (Nat × Partition)) : Bool :=
  match rest.head? with
  | some q => decide (q.2.curBounds.start > bounds.stop)
  | none => false

/-- Peek condition `iter.peek().is_some_and(|(_, p)| p.bounds().start() <= bounds.end())`
of the `new_partition` insertion scan. -/
def peekStartLe (bounds : SectorRange) (rest : List (Nat × Partition)) : Bool :=
  match rest.head? with
  | some q => decide (q.2.curBounds.start ≤ bounds.stop)
  | none => false

/-- The insertion-index scan of `Device::new_partition` (src/src/lib.rs lines
209-232): walk the visible entries with one-element lookahead; `out` starts at
0 and is only set by the `break` arm, so falling off the end yields index 0. -/
def scanIndex (bounds : SectorRange) : List (Nat × Partition) → Except Error Nat
  | [] => Except.ok 0
  | (i, p) :: rest =>
    if p.curBounds.stop < bounds.start ∧ peekStartGt bounds rest = true then
      Except.ok i
    else if p.curBounds.stop ≤ bounds.start then
      Except.error (Error.OverlapsExisting i)
    else if peekStartLe bounds rest = true then
      Except.error (Error.OverlapsExisting (i + 1))
    else
      scanIndex bounds rest

/-- `Device::new_partition`: normalize the bounds, run the insertion scan over
the visible entries, and on success insert a fresh `Virtual` partition at the
scanned index and log a `NewPartition` record. On error the device is
returned unchanged. -/
def Device.newPartition (d : Device) (name : String) (fs : Option FileSystem)
    (rb : RangeArg) : Device × Option Error :=
  let bounds := normBounds rb d
  match scanIndex bounds d.visibleEnum with
  | Except.error e => (d, some e)
  | Except.ok index =>
    ({ d with
        partitions :=
          d.partitions.insertIdx index (Partition.new name bounds fs d.sector_size)
        changes := d.changes ++ [InnerChange.NewPartition name fs bounds index] },
      none)

/-- `Device::change_partition_name`: push onto the name history of the entry
at the given absolute index (panics, i.e. `none`, when the index is out of
bounds) and log a `Name` record. -/
def Device.changePartitionName (d : Device) (partition : Nat) (new : String) :
    Option Device :=
  match d.partitions[partition]? with
  | none => none
  | some p =>
    some { d with
      partitions :=
        d.partitions.set partition { p with name := (p.name.1, p.name.2 ++ [new]) }
      changes := d.changes ++ [InnerChange.Name partition new] }

/-- `Device::remove_partition`: resolve the public (visible) index to an
absolute one via `partitions_enum().nth(index)` (panicking when out of
bounds); a `Virtual` target is deleted from the list and logged as the
removed value, any other target has its kind set to `Hidden` and `none` is
logged. -/
def Device.removePartition (d : Device) (index : Nat) : Option Device :=
  match d.visibleEnum[index]? with
  | none => none
  | some (j, p) =>
    if p.kind = PartitionKind.Virtual then
      some { d with
        partitions := d.partitions.eraseIdx j
        changes := d.changes ++ [InnerChange.RemovePartition j (some p)] }
    else
      some { d with
        partitions := d.partitions.set j { p with kind := PartitionKind.Hidden }
        changes := d.changes ++ [InnerChange.RemovePartition j none] }

/-- Tail of `Device::resize_partition` after the preceding-entry check: the
source unconditionally indexes `self.partitions[index + 1]`, which panics
(`none`) when the target is the last entry of the internal list; otherwise it
either reports an overlap with the following entry or pushes the new bounds
onto the target's history and logs a `ResizePartition` record. -/
def Device.resizeTail (d : Device) (j : Nat) (bounds : SectorRange) :
    Option (Device × Option Error) :=
  match d.partitions[j + 1]? with
  | none => none
  | some next =>
    if next.curBounds.start < bounds.stop then
      some (d, some (Error.OverlapsExisting (j + 1)))
    else
      match d.partitions[j]? with
      | none => none
      | some p =>
        some
          ({ d with
              partitions :=
                d.partitions.set j { p with bounds := (p.bounds.1, p.bounds.2 ++ [bounds]) }
              changes := d.changes ++ [InnerChange.ResizePartition j bounds] },
            none)

/-- `Device::resize_partition`: normalize the bounds, resolve the public index
to an absolute one (panicking when out of bounds), then check in order: device
bounds, the immediately preceding internal entry (`partitions[index - 1]`,
whatever its kind, skipped when the absolute index is 0), and the immediately
following internal entry (`partitions[index + 1]`, an unconditional indexing). -/
def Device.resizePartition (d : Device) (index : Nat) (rb : RangeArg) :
    Option (Device × Option Error) :=
  let bounds := normBounds rb d
  match d.visibleEnum[index]? with
  | none => none
  | some (j, _) =>
    if bounds.start < 0 ∨ bounds.stop > d.lenI then
      some (d, some Error.OutOfBounds)
    else if j ≠ 0 then
      match d.partitions[j - 1]? with
      | none => none
      | some prev =>
        if prev.curBounds.stop > bounds.start then
          some (d, some (Error.OverlapsExisting (j - 1)))
        else d.resizeTail j bounds
    else d.resizeTail j bounds

/-- `Device::get_public_index`: position of the absolute index within the
visible enumeration; the source unwraps, so `none` models the panic. -/
def Device.getPublicIndex (d : Device) (index : Nat) : Option Nat :=
  d.visibleEnum.findIdx? (fun x => x.1 == index)

/-- `Device::undo_change`: pop the most recent log record (returning `none`
as the change when the log is empty) and apply its inverse; internal index
panics and `assert!` failures are modelled as `none`. Undoing a
`NewPartition` record re-enters the public `remove_partition` with the
logged absolute index, exactly as the source does. -/
def Device.undoChange (d : Device) : Option (Device × Option Change) :=
  match d.changes.getLast? with
  | none => some (d, none)
  | some c =>
    let d0 : Device := { d with changes := d.changes.dropLast }
    match c with
    | InnerChange.Name partition new =>
      match d0.partitions[partition]? with
      | none => none
      | some p =>
        some
          ({ d0 with
              partitions :=
                d0.partitions.set partition { p with name := (p.name.1, p.name.2.dropLast) } },
            some (Change.Name partition new))
    | InnerChange.NewPartition _ _ _ index =>
      match d0.partitions[index]? with
      | none => none
      | some p =>
        if p.kind = PartitionKind.Virtual then
          match d0.removePartition index with
          | none => none
          | some d1 =>
            match d1.getPublicIndex index with
            | none => none
            | some pub => some (d1, some (Change.RemovePartition pub))
        else none
    | InnerChange.RemovePartition index removed =>
      match removed with
      | some r =>
        if index ≤ d0.partitions.length then
          let d1 : Device := { d0 with partitions := d0.partitions.insertIdx index r }
          match d1.getPublicIndex index with
          | none => none
          | some pub => some (d1, some (Change.RemovePartition pub))
        else none
      | none =>
        match d0.partitions[index]? with
        | none => none
        | some p =>
          if p.kind = PartitionKind.Hidden then
            let d1 : Device :=
              { d0 with partitions := d0.partitions.set index { p with kind := PartitionKind.Real } }
            match d1.getPublicIndex index with
            | none => none
            | some pub => some (d1, some (Change.RemovePartition pub))
          else none
    | InnerChange.ResizePartition index bounds =>
      match d0.partitions[index]? with
      | none => none
      | some p =>
        let d1 : Device :=
          { d0 with
              partitions :=
                d0.partitions.set index { p with bounds := (p.bounds.1, p.bounds.2.dropLast) } }
        match d1.getPublicIndex index with
        | none => none
        | some pub => some (d1, some (Change.ResizePartition pub bounds))

/-- `Device::undo_all_changes`: clear the log, clear every per-field history,
drop `Virtual` entries, and restore `Hidden` entries to `Real`. -/
def Device.undoAllChanges (d : Device) : Device :=
  { d with
      changes := []
      partitions :=
        ((d.partitions.map Partition.undoAllChanges).filter
            (fun p => decide (p.kind ≠ PartitionKind.Virtual))).map
          (fun p => if p.kind = PartitionKind.Hidden then { p with kind := PartitionKind.Real } else p) }

/-- The `as_left` helper of `partitions_with_empty`. -/
def asLeft : Partition ⊕ SectorRange → Option Partition
  | Sum.inl p => some p
  | Sum.inr _ => none

/-- The gap-insertion `while` loop of `Device::partitions_with_empty`
(src/src/lib.rs lines 148-158): at index `i`, read entries `i` and `i + 1`
(unwrapping them as partitions), assert they do not overlap, and insert a
synthesized gap between them when their bounds are not adjacent. -/
def gvLoop (ps : List (Partition ⊕ SectorRange)) (i : Nat) :
    Option (List (Partition ⊕ SectorRange)) :=
  if h : i < ps.length - 1 then
    match ps[i]?.bind asLeft, ps[i + 1]?.bind asLeft with
    | some pl, some pr =>
      let left := pl.curBounds.stop
      let right := pr.curBounds.start
      if right > left then
        if right - left > 1 then
          gvLoop (ps.insertIdx (i + 1) (Sum.inr { start := left + 1, stop := right - 1 })) (i + 2)
        else
          gvLoop ps (i + 1)
      else none
    | _, _ => none
  else some ps
termination_by ps.length - i
decreasing_by
  · have hlen : (ps.insertIdx (i + 1) (Sum.inr { start := pl.curBounds.stop + 1, stop := pr.curBounds.start - 1 })).length = ps.length + 1 := by
      apply List.length_insertIdx
      omega
    omega
  · omega

/-- `Device::partitions_with_empty`: the visible partitions interleaved with
synthesized unused ranges — a leading gap when the first partition starts
after sector 1, internal gaps via `gvLoop`, and a trailing range when the
last partition's end falls short of the device size. `none` models the
function's `unwrap`/`assert!` panics. -/
def Device.partitionsWithEmpty (d : Device) :
    Option (List (Partition ⊕ SectorRange)) :=
  let partitions : List (Partition ⊕ SectorRange) := d.visible.map Sum.inl
  if partitions.isEmpty then
    some partitions
  else
    match partitions[0]?.bind asLeft with
    | none => none
    | some p0 =>
      let start :=
        if p0.curBounds.start > 1 then
          (partitions.insertIdx 0 (Sum.inr { start := 1, stop := p0.curBounds.start - 1 }), 1)
        else
          (partitions, 0)
      match gvLoop start.1 start.2 with
      | none => none
      | some ps2 =>
        match ps2.getLast?.bind asLeft with
        | none => none
        | some plast =>
          let e := plast.curBounds.stop
          if u64wrap (u64OfI64 e * d.sector_size) < d.sizeBytes then
            some (ps2 ++ [Sum.inr { start := e, stop := i64OfU64 (d.sizeBytes / d.sector_size) }])
          else some ps2

/-- The visible list is sorted by start sector and pairwise non-overlapping. -/
def visibleSortedDisjoint (d : Device) : Prop :=
  d.visible.Pairwise (fun p q => p.curBounds.start ≤ q.curBounds.start) ∧
  d.visible.Pairwise
    (fun p q => p.curBounds.stop < q.curBounds.start ∨ q.curBounds.stop < p.curBounds.start)

instance (d : Device) : Decidable (visibleSortedDisjoint d) :=
  inferInstanceAs (Decidable (And _ _))

/-- A partition's current bounds intersect the given sector range. -/
def Intersects (b : SectorRange) (p : Partition) : Prop :=
  p.curBounds.start ≤ b.stop ∧ b.start ≤ p.curBounds.stop

instance (b : SectorRange) (p : Partition) : Decidable (Intersects b p) :=
  inferInstanceAs (Decidable (And _ _))

/-- A sample partition entry with empty histories, no filesystem and no path:
in the spec's terms a free entry when its kind is `Virtual`. -/
def samplePart (k : PartitionKind) (s e : Int) : Partition :=
  { path := none
    mount_point := none
    kind := k
    name := ("p", [])
    bounds := ({ start := s, stop := e }, [])
    fs := (none, [])
    sector_size := 512 }

/-- A sample device with 512-byte sectors and an empty change log. -/
def sampleDev (ps : List Partition) (len : Nat) : Device :=
  { model := "m"
    path := "d"
    partitions := ps
    changes := []
    length := len
    sector_size := 512 }

/-- The range argument `s..=e`. -/
def incRange (s e : Int) : RangeArg :=
  { startB := RangeBound.included s, stopB := RangeBound.included e }

/-- Device for C1: 1000 sectors, fully covered by one committed partition. -/
def devC1 : Device :=
  sampleDev [samplePart PartitionKind.Real 1 1000] 1000

/-- C1 state after `new_partition("x", None, 10..=20)` on `devC1`: the request
lies inside the existing partition, yet the call succeeds and inserts the new
entry at index 0. -/
def devC1b : Device :=
  { devC1 with
      partitions :=
        [Partition.new "x" { start := 10, stop := 20 } none 512,
          samplePart PartitionKind.Real 1 1000]
      changes := [InnerChange.NewPartition "x" none { start := 10, stop := 20 } 0] }

/-- Device for C2: 400 sectors with partitions covering sectors 1-100 and 201-300. -/
def devC2 : Device :=
  sampleDev [samplePart PartitionKind.Real 1 100, samplePart PartitionKind.Real 201 300] 400

/-- Device for C3: a free (no filesystem, no path) `Virtual` entry directly
before a committed partition. -/
def devC3 : Device :=
  sampleDev [samplePart PartitionKind.Virtual 1 10, samplePart PartitionKind.Real 20 30] 1000

/-- Device for C4: three committed partitions; removing the first one stages a
`Hidden` entry in front of the gap used afterwards. -/
def devC4 : Device :=
  sampleDev
    [samplePart PartitionKind.Real 1 10, samplePart PartitionKind.Real 20 30,
      samplePart PartitionKind.Real 100 200] 1000

/-- C4 intermediate state: `devC4` after `remove_partition(0)`. -/
def devC4a : Device :=
  { devC4 with
      partitions :=
        [samplePart PartitionKind.Hidden 1 10, samplePart PartitionKind.Real 20 30,
          samplePart PartitionKind.Real 100 200]
      changes := [InnerChange.RemovePartition 0 none] }

/-- C4 state after `new_partition("x", None, 40..=50)` on `devC4a`. -/
def devC4b : Device :=
  { devC4a with
      partitions :=
        [samplePart PartitionKind.Hidden 1 10,
          Partition.new "x" { start := 40, stop := 50 } none 512,
          samplePart PartitionKind.Real 20 30, samplePart PartitionKind.Real 100 200]
      changes :=
        [InnerChange.RemovePartition 0 none,
          InnerChange.NewPartition "x" none { start := 40, stop := 50 } 1] }

/-- C4 state actually produced by `undo_change` on `devC4b`: the new `Virtual`
partition survives and the wrong entry (sectors 20-30) was hidden. -/
def devC4c : Device :=
  { devC4a with
      partitions :=
        [samplePart PartitionKind.Hidden 1 10,
          Partition.new "x" { start := 40, stop := 50 } none 512,
          samplePart PartitionKind.Hidden 20 30, samplePart PartitionKind.Real 100 200]
      changes := [InnerChange.RemovePartition 0 none, InnerChange.RemovePartition 2 none] }

/-- Device for C5: the only entry before the target is `Hidden`. -/
def devC5 : Device :=
  sampleDev [samplePart PartitionKind.Hidden 1 50, samplePart PartitionKind.Real 60 100] 200

/-- Device for C5's amended-claim witness: two committed partitions with the
target first, so a shrink of the first partition succeeds. -/
def devC5w : Device :=
  sampleDev [samplePart PartitionKind.Real 1 10, samplePart PartitionKind.Real 20 30] 100

/-- Device for C6: two committed partitions whose span a request can cross. -/
def devC6 : Device :=
  sampleDev [samplePart PartitionKind.Real 1 10, samplePart PartitionKind.Real 20 30] 1000

/-- Device for C7: one committed partition leaving free space at the front. -/
def devC7 : Device :=
  sampleDev [samplePart PartitionKind.Real 100 200] 1000

/-- C7 state after `new_partition("a", None, 10..=20)`. -/
def devC7a : Device :=
  { devC7 with
      partitions :=
        [Partition.new "a" { start := 10, stop := 20 } none 512,
          samplePart PartitionKind.Real 100 200]
      changes := [InnerChange.NewPartition "a" none { start := 10, stop := 20 } 0] }

/-- C7 state after `undo_change` on `devC7a`: the log still holds one record. -/
def devC7b : Device :=
  { devC7 with
      partitions := [samplePart PartitionKind.Real 100 200]
      changes :=
        [InnerChange.RemovePartition 0
            (some (Partition.new "a" { start := 10, stop := 20 } none 512))] }

/-- Device for C9's counterexample: the last visible partition is followed by
a `Hidden` entry in the internal list. -/
def devC9 : Device :=
  sampleDev [samplePart PartitionKind.Real 1 10, samplePart PartitionKind.Hidden 20 30] 400

/-- C9 state after the resize of the last visible partition succeeds. -/
def devC9r : Device :=
  { devC9 with
      partitions :=
        [{ samplePart PartitionKind.Real 1 10 with
            bounds := ({ start := 1, stop := 10 }, [{ start := 1, stop := 15 }]) },
          samplePart PartitionKind.Hidden 20 30]
      changes := [InnerChange.ResizePartition 0 { start := 1, stop := 15 }] }

/-- Device for C9's amended claim witness: a single partition, which is both
the last visible and the last internal entry. -/
def devC9w : Device :=
  sampleDev [samplePart PartitionKind.Real 1 10] 400

/-- Device for C10: only a `Hidden` entry, so no visible partitions. -/
def devC10 : Device :=
  sampleDev [samplePart PartitionKind.Hidden 1 10] 400

/-- C1: claims the visible list stays sorted by start sector and pairwise
non-overlapping after every successful mutation. The code violates this: on a
fully partitioned 1000-sector device, `new_partition` accepts bounds 10..=20
lying inside the existing partition, inserts the new entry at index 0, and
the resulting visible list is neither sorted nor disjoint — whereupon the
source's own overlap assertion in `partitions_with_empty` fires (`none`). -/
theorem C1_new_partition_breaks_sorted_invariant :
    devC1.newPartition "x" none (incRange 10 20) = (devC1b, none) ∧
    devC1b.visible.map Partition.curBounds =
      [{ start := 10, stop := 20 }, { start := 1, stop := 1000 }] ∧
    ¬ visibleSortedDisjoint devC1b ∧
    devC1b.partitionsWithEmpty = none := by
  refine ⟨by decide, by decide, by decide, ?_⟩
  simp [devC1b, devC1, sampleDev, samplePart, Device.partitionsWithEmpty, Device.visible,
    Partition.new, Partition.curBounds, gvLoop, asLeft, u64wrap, u64OfI64, i64OfU64,
    Device.sizeBytes]

/-- C2: on a 400-sector device with partitions covering 1-100 and 201-300,
`partitions_with_empty` synthesizes the internal gap 101..=200 correctly, but
the trailing range starts at sector 300 — the last partition's end — not at
301, so the returned ranges [201,300] and [300,400] overlap, contrary to the
claimed gaps [101,200] and [301,400]. -/
theorem C2_gap_view_trailing_range_overlaps :
    devC2.partitionsWithEmpty =
      some [Sum.inl (samplePart PartitionKind.Real 1 100),
        Sum.inr { start := 101, stop := 200 },
        Sum.inl (samplePart PartitionKind.Real 201 300),
        Sum.inr { start := 300, stop := 400 }] ∧
    Intersects { start := 300, stop := 400 } (samplePart PartitionKind.Real 201 300) := by
  refine ⟨?_, by decide⟩
  simp [devC2, sampleDev, samplePart, Device.partitionsWithEmpty, Device.visible,
    Partition.curBounds, gvLoop, asLeft, u64wrap, u64OfI64, i64OfU64, Device.sizeBytes,
    List.insertIdx]

/-- C3's counterexample: the claim says that when the entry before the target
is free and `Virtual`, `remove_partition` removes it outright. In the code no
coalescing happens: after `remove_partition(1)` on a device whose entry 0 is
a free `Virtual` partition, entry 0 is still present unchanged and only the
target was hidden. -/
theorem C3_counterexample :
    devC3.removePartition 1 =
      some { devC3 with
          partitions :=
            [samplePart PartitionKind.Virtual 1 10, samplePart PartitionKind.Hidden 20 30]
          changes := [InnerChange.RemovePartition 1 none] } ∧
    (devC3.removePartition 1).map (fun d => d.partitions.length) = some 2 ∧
    ((devC3.removePartition 1).bind (fun d => d.partitions[0]?)) =
      some (samplePart PartitionKind.Virtual 1 10) := by
  refine ⟨by decide, by decide, by decide⟩

/-- C4: claims `new_partition` followed by `undo_change` restores the
partition list exactly. Counterexample run: starting from three committed
partitions, `remove_partition(0)` hides the first entry; `new_partition`
then logs absolute index 1, but the undo hands that absolute index to
`remove_partition`, which reinterprets it as a visible index — so the undo
hides the partition at sectors 20-30 and leaves the new `Virtual` partition
in place, and the list differs from its pre-`new_partition` state. -/
theorem C4_new_then_undo_not_restored :
    devC4.removePartition 0 = some devC4a ∧
    devC4a.newPartition "x" none (incRange 40 50) = (devC4b, none) ∧
    devC4b.undoChange = some (devC4c, some (Change.RemovePartition 0)) ∧
    devC4c.partitions ≠ devC4a.partitions := by
  refine ⟨by decide, by decide, by decide, by decide⟩

/-- C7: claims `undo_change` always shrinks a non-empty log by exactly one
record. After one successful `new_partition` the log holds one record; the
undo pops it but re-enters the public `remove_partition`, which logs a fresh
`RemovePartition` record, so `n_changes` is still 1 after the undo. -/
theorem C7_undo_of_new_partition_keeps_log_length :
    devC7.newPartition "a" none (incRange 10 20) = (devC7a, none) ∧
    devC7a.nChanges = 1 ∧
    devC7a.undoChange = some (devC7b, some (Change.RemovePartition 0)) ∧
    devC7b.nChanges = 1 := by
  refine ⟨by decide, by decide, by decide, by decide⟩

/-- C8: `undo_all_changes` is idempotent — the second call finds an empty
log, cleared histories, no `Virtual` and no `Hidden` entries, and leaves the
device unchanged. -/
theorem C8_undo_all_changes_idempotent (d : Device) :
    d.undoAllChanges.undoAllChanges = d.undoAllChanges := by
  have hu : ∀ q : Partition,
      Partition.undoAllChanges (Partition.undoAllChanges q) = Partition.undoAllChanges q :=
    fun q => rfl
  have key : ∀ m : List Partition,
      (∀ x ∈ m, Partition.undoAllChanges x = x ∧ x.kind = PartitionKind.Real) →
      ((m.map Partition.undoAllChanges).filter
          (fun p => decide (p.kind ≠ PartitionKind.Virtual))).map
        (fun p => if p.kind = PartitionKind.Hidden then { p with kind := PartitionKind.Real } else p) = m := by
    intro m hm
    induction m with
    | nil => rfl
    | cons x t ih =>
      obtain ⟨hx, hk⟩ := hm x (List.mem_cons_self x t)
      have ht := ih (fun y hy => hm y (List.mem_cons_of_mem x hy))
      simp only [List.map_cons, hx, List.filter_cons, hk]
      rw [if_pos (by simp [hk])]
      simp only [List.map_cons, ht]
      rw [if_neg (by simp [hk])]
  have main : ∀ x ∈ ((d.partitions.map Partition.undoAllChanges).filter
        (fun p => decide (p.kind ≠ PartitionKind.Virtual))).map
      (fun p => if p.kind = PartitionKind.Hidden then { p with kind := PartitionKind.Real } else p),
      Partition.undoAllChanges x = x ∧ x.kind = PartitionKind.Real := by
    intro x hx
    rw [List.mem_map] at hx
    obtain ⟨y, hy, rfl⟩ := hx
    rw [List.mem_filter] at hy
    obtain ⟨hy1, hy2⟩ := hy
    rw [List.mem_map] at hy1
    obtain ⟨z, hz, rfl⟩ := hy1
    have hnv : (Partition.undoAllChanges z).kind ≠ PartitionKind.Virtual :=
      of_decide_eq_true hy2
    by_cases hh : (Partition.undoAllChanges z).kind = PartitionKind.Hidden
    · rw [if_pos hh]
      exact ⟨rfl, rfl⟩
    · rw [if_neg hh]
      refine ⟨rfl, ?_⟩
      cases hk : (Partition.undoAllChanges z).kind with
      | Real => rfl
      | Virtual => exact absurd hk hnv
      | Hidden => exact absurd hk hh
  have hmain := key _ main
  unfold Device.undoAllChanges
  dsimp only
  rw [hmain]

/-- C3 (amended): `remove_partition` performs no neighbor coalescing — it
resolves the visible index to the absolute index `j`; a `Virtual` target is
deleted from the list and logged with the removed value, any other target
merely has its kind set to `Hidden` with `none` logged, and no neighboring
entry is touched. -/
theorem C3_remove_partition_no_coalescing (d : Device) (i j : Nat) (p : Partition)
    (h : d.visibleEnum[i]? = some (j, p)) :
    d.removePartition i =
      some (if p.kind = PartitionKind.Virtual then
        { d with
            partitions := d.partitions.eraseIdx j
            changes := d.changes ++ [InnerChange.RemovePartition j (some p)] }
      else
        { d with
            partitions := d.partitions.set j { p with kind := PartitionKind.Hidden }
            changes := d.changes ++ [InnerChange.RemovePartition j none] }) := by
  simp only [Device.removePartition, h]
  split_ifs with hk <;> rfl

/-- Witness for C3's amended theorem at a concrete device. -/
theorem C3_remove_partition_no_coalescing_witness :
    devC3.visibleEnum[1]? = some (1, samplePart PartitionKind.Real 20 30) ∧
    devC3.removePartition 1 =
      some (if (samplePart PartitionKind.Real 20 30).kind = PartitionKind.Virtual then
        { devC3 with
            partitions := devC3.partitions.eraseIdx 1
            changes := devC3.changes ++
              [InnerChange.RemovePartition 1 (some (samplePart PartitionKind.Real 20 30))] }
      else
        { devC3 with
            partitions := devC3.partitions.set 1
              { samplePart PartitionKind.Real 20 30 with kind := PartitionKind.Hidden }
            changes := devC3.changes ++ [InnerChange.RemovePartition 1 none] }) :=
  ⟨by decide,
    C3_remove_partition_no_coalescing devC3 1 1 (samplePart PartitionKind.Real 20 30) (by decide)⟩

/-- C5's counterexample: the code checks `partitions[index - 1]` whatever its
kind. Here the only entry before the target is `Hidden` — there is no
preceding non-`Hidden` entry, so by the claim no preceding-neighbor overlap
error should occur — yet the call fails with `OverlapsExisting(0)`, naming
the `Hidden` entry. -/
theorem C5_counterexample :
    devC5.resizePartition 0 (incRange 10 100) =
      some (devC5, some (Error.OverlapsExisting 0)) ∧
    devC5.partitions[0]?.map Partition.kind = some PartitionKind.Hidden ∧
    devC5.visibleEnum[0]? = some (1, samplePart PartitionKind.Real 60 100) ∧
    (devC5.partitions.take 1).all (fun p => p.kind == PartitionKind.Hidden) = true := by
  refine ⟨by decide, by decide, by decide, by decide⟩

/-- C5 (amended): `resize_partition` normalizes the bounds and validates, in
order: both endpoints within the device (`OutOfBounds` otherwise); the
immediately preceding entry of the internal list — of any kind, including
`Hidden` — must not end past the new start (`OverlapsExisting(j-1)`); the
immediately following internal entry must not start before the new end
(`OverlapsExisting(j+1)`). On failure the device (hence every bounds
history) is unchanged; on success the new bounds are pushed onto the
target's history and a `ResizePartition` record is logged. -/
theorem C5_resize_spec (d : Device) (i : Nat) (rb : RangeArg) (j : Nat) (p : Partition)
    (h : d.visibleEnum[i]? = some (j, p)) :
    (((normBounds rb d).start < 0 ∨ (normBounds rb d).stop > d.lenI) →
      d.resizePartition i rb = some (d, some Error.OutOfBounds)) ∧
    (∀ prev, ¬ ((normBounds rb d).start < 0 ∨ (normBounds rb d).stop > d.lenI) →
      j ≠ 0 → d.partitions[j - 1]? = some prev →
      prev.curBounds.stop > (normBounds rb d).start →
      d.resizePartition i rb = some (d, some (Error.OverlapsExisting (j - 1)))) ∧
    (∀ next, ¬ ((normBounds rb d).start < 0 ∨ (normBounds rb d).stop > d.lenI) →
      (j = 0 ∨ ∃ prev, d.partitions[j - 1]? = some prev ∧
        ¬ prev.curBounds.stop > (normBounds rb d).start) →
      d.partitions[j + 1]? = some next →
      next.curBounds.start < (normBounds rb d).stop →
      d.resizePartition i rb = some (d, some (Error.OverlapsExisting (j + 1)))) ∧
    (∀ next pj, ¬ ((normBounds rb d).start < 0 ∨ (normBounds rb d).stop > d.lenI) →
      (j = 0 ∨ ∃ prev, d.partitions[j - 1]? = some prev ∧
        ¬ prev.curBounds.stop > (normBounds rb d).start) →
      d.partitions[j + 1]? = some next →
      ¬ next.curBounds.start < (normBounds rb d).stop →
      d.partitions[j]? = some pj →
      d.resizePartition i rb =
        some ({ d with
            partitions := d.partitions.set j
              { pj with bounds := (pj.bounds.1, pj.bounds.2 ++ [normBounds rb d]) }
            changes := d.changes ++ [InnerChange.ResizePartition j (normBounds rb d)] },
          none)) := by
  refine ⟨?_, ?_, ?_, ?_⟩
  · intro hoob
    simp [Device.resizePartition, h, hoob]
  · intro prev hoob hj hprev hlt
    simp [Device.resizePartition, h, hoob, hj, hprev, hlt]
  · intro next hoob hprevok hnext hlt
    rcases hprevok with hj0 | ⟨prev, hprev, hple⟩
    · subst hj0
      simp [Device.resizePartition, h, hoob, Device.resizeTail, hnext, hlt]
    · by_cases hj : j = 0
      · subst hj
        simp [Device.resizePartition, h, hoob, Device.resizeTail, hnext, hlt]
      · simp [Device.resizePartition, h, hoob, hj, hprev, hple, Device.resizeTail, hnext, hlt]
  · intro next pj hoob hprevok hnext hge hpj
    rcases hprevok with hj0 | ⟨prev, hprev, hple⟩
    · subst hj0
      simp [Device.resizePartition, h, hoob, Device.resizeTail, hnext, hge, hpj]
    · by_cases hj : j = 0
      · subst hj
        simp [Device.resizePartition, h, hoob, Device.resizeTail, hnext, hge, hpj]
      · simp [Device.resizePartition, h, hoob, hj, hprev, hple, Device.resizeTail, hnext, hge, hpj]

/-- Witness for C5's amended theorem: a concrete successful resize pushing
onto the bounds history and logging a record. -/
theorem C5_resize_spec_witness :
    devC5w.resizePartition 0 (incRange 2 12) =
      some ({ devC5w with
          partitions := devC5w.partitions.set 0
            { samplePart PartitionKind.Real 1 10 with
                bounds := ((samplePart PartitionKind.Real 1 10).bounds.1,
                  (samplePart PartitionKind.Real 1 10).bounds.2 ++
                    [normBounds (incRange 2 12) devC5w]) }
          changes := devC5w.changes ++
            [InnerChange.ResizePartition 0 (normBounds (incRange 2 12) devC5w)] },
        none) :=
  (C5_resize_spec devC5w 0 (incRange 2 12) 0 (samplePart PartitionKind.Real 1 10)
      (by decide)).2.2.2
    (samplePart PartitionKind.Real 20 30) (samplePart PartitionKind.Real 1 10)
    (by decide) (Or.inl rfl) (by decide) (by decide) (by decide)

/-- C9's counterexample: `devC9`'s only visible partition (absolute index 0)
is the last visible one, the requested bounds 1..=15 are within the device,
yet `resize_partition` does not panic — a `Hidden` entry follows at absolute
index 1, the neighbor read succeeds, and the resize completes. -/
theorem C9_counterexample :
    devC9.visibleEnum.map Prod.fst = [0] ∧
    devC9.resizePartition 0 (incRange 1 15) = some (devC9r, none) := by
  refine ⟨by decide, by decide⟩

/-- C9 (amended): when the target of `resize_partition` is the last entry of
the internal list, the unconditional read of `partitions[index + 1]` is out
of bounds, so the call panics whenever the normalized bounds are within the
device and the preceding-entry check passes. -/
theorem C9_resize_on_last_internal_entry_panics (d : Device) (i : Nat) (rb : RangeArg)
    (j : Nat) (p : Partition)
    (h : d.visibleEnum[i]? = some (j, p))
    (hlast : d.partitions.length = j + 1)
    (hin : ¬ ((normBounds rb d).start < 0 ∨ (normBounds rb d).stop > d.lenI))
    (hprev : j = 0 ∨ ∃ prev, d.partitions[j - 1]? = some prev ∧
        ¬ prev.curBounds.stop > (normBounds rb d).start) :
    d.resizePartition i rb = none := by
  have hnext : d.partitions[j + 1]? = none := by
    rw [List.getElem?_eq_none_iff]
    omega
  rcases hprev with hj0 | ⟨prev, hprev, hple⟩
  · subst hj0
    simp [Device.resizePartition, h, hin, Device.resizeTail, hnext]
  · by_cases hj : j = 0
    · subst hj
      simp [Device.resizePartition, h, hin, Device.resizeTail, hnext]
    · simp [Device.resizePartition, h, hin, hj, hprev, hple, Device.resizeTail, hnext]

/-- Witness for C9's amended theorem: resizing the sole (hence last) entry
of a one-partition device panics even with in-device bounds. -/
theorem C9_resize_on_last_internal_entry_panics_witness :
    devC9w.partitions.length = 0 + 1 ∧
    devC9w.resizePartition 0 (incRange 1 20) = none :=
  ⟨rfl,
    C9_resize_on_last_internal_entry_panics devC9w 0 (incRange 1 20) 0
      (samplePart PartitionKind.Real 1 10) (by decide) rfl (by decide) (Or.inl rfl)⟩

/-- C10: when no partition is visible, `partitions_with_empty` returns the
empty sequence — the emptiness guard skips all gap synthesis, so not even a
whole-device gap is produced. -/
theorem C10_gap_view_empty_when_no_visible (d : Device) (h : d.visible = []) :
    d.partitionsWithEmpty = some [] := by
  simp [Device.partitionsWithEmpty, h]

/-- Witness for C10 on a device whose only entry is `Hidden`. -/
theorem C10_gap_view_empty_when_no_visible_witness :
    devC10.visible = [] ∧ devC10.partitionsWithEmpty = some [] :=
  ⟨by decide, C10_gap_view_empty_when_no_visible devC10 (by decide)⟩

/-- In a well-formed, strictly ordered visible enumeration, the insertion
scan of `new_partition` reports `OverlapsExisting` with some index whenever
at least two entries intersect the requested bounds. -/
theorem scanIndex_error_of_two_intersections (bounds : SectorRange)
    (l : List (Nat × Partition))
    (hwf : ∀ x ∈ l, x.2.curBounds.start ≤ x.2.curBounds.stop)
    (hsort : l.Pairwise (fun x y => x.2.curBounds.stop < y.2.curBounds.start))
    (htwo : 2 ≤ l.countP (fun x => decide (Intersects bounds x.2))) :
    ∃ k, scanIndex bounds l = Except.error (Error.OverlapsExisting k) := by
  induction l with
  | nil => simp at htwo
  | cons hd tl ih =>
    obtain ⟨i, p⟩ := hd
    rw [List.pairwise_cons] at hsort
    obtain ⟨hrel, hsort'⟩ := hsort
    by_cases hp : Intersects bounds p
    · have hone : 0 < tl.countP (fun x => decide (Intersects bounds x.2)) := by
        have h1 : ((i, p) :: tl).countP (fun x => decide (Intersects bounds x.2)) =
            tl.countP (fun x => decide (Intersects bounds x.2)) + 1 :=
          List.countP_cons_of_pos _ _ (decide_eq_true hp)
        rw [h1] at htwo
        omega
      obtain ⟨q, hqmem, hq⟩ := List.countP_pos_iff.mp hone
      have hqI : Intersects bounds q.2 := of_decide_eq_true hq
      have hc1 : ¬ (p.curBounds.stop < bounds.start ∧ peekStartGt bounds tl = true) := by
        rintro ⟨h1, -⟩
        have h2 := hp.2
        omega
      by_cases hc2 : p.curBounds.stop ≤ bounds.start
      · refine ⟨i, ?_⟩
        simp only [scanIndex]
        rw [if_neg hc1, if_pos hc2]
      · have hc3 : peekStartLe bounds tl = true := by
          cases tl with
          | nil => exact absurd hqmem (List.not_mem_nil q)
          | cons q' tl' =>
            unfold peekStartLe
            rw [List.head?_cons]
            apply decide_eq_true
            rcases List.mem_cons.mp hqmem with rfl | hmem'
            · exact hqI.1
            · have hrel' := (List.pairwise_cons.mp hsort').1 q hmem'
              have hwfq' : q'.2.curBounds.start ≤ q'.2.curBounds.stop :=
                hwf q' (List.mem_cons_of_mem _ (List.mem_cons_self q' tl'))
              have hqs := hqI.1
              omega
        refine ⟨i + 1, ?_⟩
        simp only [scanIndex]
        rw [if_neg hc1, if_neg hc2, if_pos hc3]
    · have htl : 2 ≤ tl.countP (fun x => decide (Intersects bounds x.2)) := by
        have h1 : ((i, p) :: tl).countP (fun x => decide (Intersects bounds x.2)) =
            tl.countP (fun x => decide (Intersects bounds x.2)) :=
          List.countP_cons_of_neg _ _ (by simp [hp])
        rw [h1] at htwo
        exact htwo
      have hone : 0 < tl.countP (fun x => decide (Intersects bounds x.2)) := by omega
      obtain ⟨q, hqmem, hq⟩ := List.countP_pos_iff.mp hone
      have hqI : Intersects bounds q.2 := of_decide_eq_true hq
      have hc1 : ¬ (p.curBounds.stop < bounds.start ∧ peekStartGt bounds tl = true) := by
        rintro ⟨h1, h2⟩
        cases tl with
        | nil => exact absurd hqmem (List.not_mem_nil q)
        | cons q' tl' =>
          unfold peekStartGt at h2
          rw [List.head?_cons] at h2
          have h2' : q'.2.curBounds.start > bounds.stop := of_decide_eq_true h2
          rcases List.mem_cons.mp hqmem with rfl | hmem'
          · have hqs := hqI.1
            omega
          · have hrel' := (List.pairwise_cons.mp hsort').1 q hmem'
            have hwfq' : q'.2.curBounds.start ≤ q'.2.curBounds.stop :=
              hwf q' (List.mem_cons_of_mem _ (List.mem_cons_self q' tl'))
            have hqs := hqI.1
            omega
      by_cases hc2 : p.curBounds.stop ≤ bounds.start
      · refine ⟨i, ?_⟩
        simp only [scanIndex]
        rw [if_neg hc1, if_pos hc2]
      · by_cases hc3 : peekStartLe bounds tl = true
        · refine ⟨i + 1, ?_⟩
          simp only [scanIndex]
          rw [if_neg hc1, if_neg hc2, if_pos hc3]
        · have hwf' : ∀ x ∈ tl, x.2.curBounds.start ≤ x.2.curBounds.stop :=
            fun x hx => hwf x (List.mem_cons_of_mem _ hx)
          obtain ⟨k, hk⟩ := ih hwf' hsort' htl
          refine ⟨k, ?_⟩
          simp only [scanIndex]
          rw [if_neg hc1, if_neg hc2, if_neg hc3]
          exact hk

/-- C6's counterexample: on visible partitions [1,10] and [20,30], bounds
5..=25 intersect both; the first intersecting entry has absolute index 0,
but `new_partition` returns `OverlapsExisting(1)`. -/
theorem C6_counterexample :
    devC6.newPartition "x" none (incRange 5 25) =
      (devC6, some (Error.OverlapsExisting 1)) ∧
    (devC6.visibleEnum.filter
        (fun x => decide (Intersects (normBounds (incRange 5 25) devC6) x.2))).map Prod.fst =
      [0, 1] := by
  refine ⟨by decide, by decide⟩

/-- C6 (amended): when the requested bounds intersect at least two visible
entries of a well-formed, strictly ordered layout, `new_partition` returns
`OverlapsExisting` carrying an index chosen by the insertion scan — not
necessarily the first intersecting entry — with the device (partition list
and change log) unchanged. -/
theorem C6_two_span_yields_overlap_error (d : Device) (name : String)
    (fs : Option FileSystem) (rb : RangeArg)
    (hwf : ∀ x ∈ d.visibleEnum, x.2.curBounds.start ≤ x.2.curBounds.stop)
    (hsort : d.visibleEnum.Pairwise (fun x y => x.2.curBounds.stop < y.2.curBounds.start))
    (htwo : 2 ≤ d.visibleEnum.countP
        (fun x => decide (Intersects (normBounds rb d) x.2))) :
    ∃ k, d.newPartition name fs rb = (d, some (Error.OverlapsExisting k)) := by
  obtain ⟨k, hk⟩ :=
    scanIndex_error_of_two_intersections (normBounds rb d) d.visibleEnum hwf hsort htwo
  refine ⟨k, ?_⟩
  simp [Device.newPartition, hk]

/-- Witness for C6's amended theorem at a concrete device. -/
theorem C6_two_span_yields_overlap_error_witness :
    2 ≤ devC6.visibleEnum.countP
        (fun x => decide (Intersects (normBounds (incRange 5 25) devC6) x.2)) ∧
    ∃ k, devC6.newPartition "y" none (incRange 5 25) =
      (devC6, some (Error.OverlapsExisting k)) :=
  ⟨by decide,
    C6_two_span_yields_overlap_error devC6 "y" none (incRange 5 25)
      (by decide) (by decide) (by decide)⟩

end Partner
